import Mathlib

/-
Shallow embedding of the rate-limiting core of the repository
(src/backend/app/core/rate_limiter.py): the `RateLimit` policy record, the
four algorithms of `RateLimiter.check_rate_limit` running against the
networked (Redis) counter store, and the response-header decoration of
`RateLimitMiddleware.dispatch`.

Modelling conventions:
* wall-clock time (Python `time.time()`, a float) is modelled as `ℚ`;
* Python `int(x)` is truncation toward zero (`pyInt`), Python `%` on
  integers is floor-mod (`Int.fmod`); `a % 0` and `a / 0` raise
  `ZeroDivisionError`, modelled through `Except PyErr`;
* the networked store is an explicit record of key/value maps; a store
  whose `failing` flag is set models a Redis client whose every call
  raises a communication error (caught by the algorithms' except-arms);
* a Redis sorted set maps member strings to scores.  The sliding-window
  code always uses `str(now)` as the member for score `now`; since
  Python's `str` is injective on floats the member is modelled by the
  score itself, so a sorted set is a duplicate-free `List ℚ`;
* counters only ever start at 0 and are incremented, so their values are
  modelled as `ℕ`; the TTL most recently requested for a key is recorded
  next to its value (no claim depends on TTL-driven eviction).
-/

/-- Python `int(x)` for a real `x`: truncation toward zero. -/
def pyInt (x : ℚ) : ℤ := if 0 ≤ x then ⌊x⌋ else ⌈x⌉

/-- Python `a % b` on integers: floor-mod (sign of the divisor). -/
def pyMod (a b : ℤ) : ℤ := Int.fmod a b

/-- Python `b or d` for an optional integer `b`: `d` when `b` is `None`
or `0` (falsy), else the value of `b`. -/
def pyOr (b : Option ℤ) (d : ℤ) : ℤ :=
  match b with
  | none => d
  | some x => if x = 0 then d else x

/-- The `RateLimitStrategy` enum of the source. -/
inductive RateLimitStrategy
  | fixed_window
  | sliding_window
  | token_bucket
  | leaky_bucket
deriving DecidableEq

/-- The `RateLimit` dataclass of the source: a plain record, no
validation of any field happens at construction. -/
structure RateLimit where
  requests : ℤ
  window : ℤ
  strategy : RateLimitStrategy := RateLimitStrategy.fixed_window
  burst : Option ℤ := none

/-- A value stored in the decision-metadata dict (int or string in the
source; rationals appear only as middleware header fallbacks). -/
inductive MetaVal
  | i (n : ℤ)
  | q (x : ℚ)
  | s (v : String)
deriving DecidableEq

/-- The metadata dict returned next to the allow/deny decision. -/
abbrev Metadata := List (String × MetaVal)

/-- Python exceptions that can escape a `check_rate_limit` call. -/
inductive PyErr
  | zeroDivision
deriving DecidableEq

/-- Update of a key in an association list (dict/Redis assignment):
overwrite in place if present, append otherwise. -/
def setKey {α : Type} : List (String × α) → String → α → List (String × α)
  | [], k, v => [(k, v)]
  | (k', v') :: rest, k, v =>
      if k' = k then (k, v) :: rest else (k', v') :: setKey rest k v

/-- State of the networked counter store (Redis db 1), split by value
kind; every key carries the TTL last requested for it.  `failing = true`
models a connected client whose every call raises a communication
error. -/
structure Redis where
  failing : Bool
  counters : List (String × ℕ × ℤ)
  zsets : List (String × List ℚ × ℤ)
  tokenH : List (String × ℚ × ℚ × ℤ)
  leakyH : List (String × ℚ × ℚ × ℤ)
deriving DecidableEq

/-- A reachable store with no state yet. -/
def emptyRedis : Redis := ⟨false, [], [], [], []⟩

/-- A store whose every call raises a communication error. -/
def failingRedis : Redis := ⟨true, [], [], [], []⟩

/-- Redis `ZREMRANGEBYSCORE key lo hi`: drop members whose score lies in
`[lo, hi]` (both bounds inclusive). -/
def zremrangebyscore (z : List ℚ) (lo hi : ℚ) : List ℚ :=
  z.filter (fun s => !(decide (lo ≤ s) && decide (s ≤ hi)))

/-- Redis `ZADD key {str(now): now}` with the member identified with its
score: a member already present is re-scored to the same value. -/
def zadd (z : List ℚ) (t : ℚ) : List ℚ :=
  if t ∈ z then z else z ++ [t]

/-- Key of a fixed-window counter (source line 87). -/
def fixedKey (identifier : String) (windowStart : ℤ) : String :=
  "rate_limit:fixed:" ++ identifier ++ ":" ++ toString windowStart

/-- Key of a sliding-window sorted set (source line 128). -/
def slidingKey (identifier : String) : String :=
  "rate_limit:sliding:" ++ identifier

/-- Key of a token-bucket hash (source line 176). -/
def tokenKey (identifier : String) : String :=
  "rate_limit:token:" ++ identifier

/-- Key of a leaky-bucket hash (source line 251). -/
def leakyKey (identifier : String) : String :=
  "rate_limit:leaky:" ++ identifier

/-- `RateLimiter._fixed_window` on the networked store.  `now = int(time.time())`;
`now % window` raises when `window = 0`; the INCR/EXPIRE pipeline is the
atomic counter bump; a store error is caught and turned into
`(True, {})`. -/
def fixedWindow (identifier : String) (rl : RateLimit) (t : ℚ) (r : Redis) :
    Except PyErr ((Bool × Metadata) × Redis) :=
  if rl.window = 0 then Except.error PyErr.zeroDivision else
  let now : ℤ := pyInt t
  let windowStart : ℤ := now - pyMod now rl.window
  let key : String := fixedKey identifier windowStart
  if r.failing then Except.ok ((true, []), r) else
  let currentCount : ℕ := (((r.counters.lookup key).map Prod.fst).getD 0) + 1
  let counters' := setKey r.counters key (currentCount, rl.window)
  let allowed : Bool := decide ((currentCount : ℤ) ≤ rl.requests)
  let resetTime : ℤ := windowStart + rl.window
  let metadata : Metadata :=
    [("limit", MetaVal.i rl.requests),
     ("remaining", MetaVal.i (max 0 (rl.requests - currentCount))),
     ("reset", MetaVal.i resetTime),
     ("strategy", MetaVal.s "fixed_window")]
  Except.ok ((allowed, metadata), { r with counters := counters' })

/-- `RateLimiter._sliding_window` on the networked store.  `now = time.time()`;
the pipeline prunes scores in `[0, now - window]`, counts the remainder,
adds the current timestamp and refreshes the TTL; a store error is
caught and turned into `(True, {})`. -/
def slidingWindow (identifier : String) (rl : RateLimit) (t : ℚ) (r : Redis) :
    Except PyErr ((Bool × Metadata) × Redis) :=
  let key : String := slidingKey identifier
  let windowStart : ℚ := t - rl.window
  if r.failing then Except.ok ((true, []), r) else
  let z : List ℚ := ((r.zsets.lookup key).map Prod.fst).getD []
  let pruned : List ℚ := zremrangebyscore z 0 windowStart
  let currentCount : ℕ := pruned.length + 1
  let zsets' := setKey r.zsets key (zadd pruned t, rl.window)
  let allowed : Bool := decide ((currentCount : ℤ) ≤ rl.requests)
  let metadata : Metadata :=
    [("limit", MetaVal.i rl.requests),
     ("remaining", MetaVal.i (max 0 (rl.requests - currentCount))),
     ("reset", MetaVal.i (pyInt (t + rl.window))),
     ("strategy", MetaVal.s "sliding_window")]
  Except.ok ((allowed, metadata), { r with zsets := zsets' })

/-- `RateLimiter._token_bucket` on the networked store.  The refill-rate
division `requests / window` happens before the try-block and raises on
`window = 0`; a store error is caught and turned into `(True, {})`. -/
def tokenBucket (identifier : String) (rl : RateLimit) (t : ℚ) (r : Redis) :
    Except PyErr ((Bool × Metadata) × Redis) :=
  let key : String := tokenKey identifier
  let burst : ℤ := pyOr rl.burst rl.requests
  if rl.window = 0 then Except.error PyErr.zeroDivision else
  let refillRate : ℚ := (rl.requests : ℚ) / (rl.window : ℚ)
  if r.failing then Except.ok ((true, []), r) else
  let tokens0 : ℚ :=
    match r.tokenH.lookup key with
    | none => (burst : ℚ)
    | some (tk, _, _) => tk
  let lastRefill : ℚ :=
    match r.tokenH.lookup key with
    | none => t
    | some (_, lr, _) => lr
  let timePassed : ℚ := t - lastRefill
  let tokens1 : ℚ := min (burst : ℚ) (tokens0 + timePassed * refillRate)
  let tokens2 : ℚ := if 1 ≤ tokens1 then tokens1 - 1 else tokens1
  let allowed : Bool := if 1 ≤ tokens1 then true else false
  let tokenH' := setKey r.tokenH key (tokens2, t, rl.window * 2)
  let metadata : Metadata :=
    [("limit", MetaVal.i rl.requests),
     ("burst", MetaVal.i burst),
     ("tokens", MetaVal.i (pyInt tokens2)),
     ("strategy", MetaVal.s "token_bucket")]
  Except.ok ((allowed, metadata), { r with tokenH := tokenH' })

/-- `RateLimiter._leaky_bucket` on the networked store.  The leak-rate
division `requests / window` happens before the try-block and raises on
`window = 0`; a store error is caught and turned into `(True, {})`. -/
def leakyBucket (identifier : String) (rl : RateLimit) (t : ℚ) (r : Redis) :
    Except PyErr ((Bool × Metadata) × Redis) :=
  let key : String := leakyKey identifier
  if rl.window = 0 then Except.error PyErr.zeroDivision else
  let leakRate : ℚ := (rl.requests : ℚ) / (rl.window : ℚ)
  let bucketSize : ℤ := pyOr rl.burst rl.requests
  if r.failing then Except.ok ((true, []), r) else
  let volume0 : ℚ :=
    match r.leakyH.lookup key with
    | none => 0
    | some (v, _, _) => v
  let lastLeak : ℚ :=
    match r.leakyH.lookup key with
    | none => t
    | some (_, ll, _) => ll
  let leaked : ℚ := (t - lastLeak) * leakRate
  let volume1 : ℚ := max 0 (volume0 - leaked)
  let volume2 : ℚ := if volume1 < (bucketSize : ℚ) then volume1 + 1 else volume1
  let allowed : Bool := if volume1 < (bucketSize : ℚ) then true else false
  let leakyH' := setKey r.leakyH key (volume2, t, rl.window * 2)
  let metadata : Metadata :=
    [("limit", MetaVal.i rl.requests),
     ("bucket_size", MetaVal.i bucketSize),
     ("volume", MetaVal.i (pyInt volume2)),
     ("strategy", MetaVal.s "leaky_bucket")]
  Except.ok ((allowed, metadata), { r with leakyH := leakyH' })

/-- `RateLimiter.check_rate_limit`: dispatch on the policy strategy. -/
def checkRateLimit (identifier : String) (rl : RateLimit) (t : ℚ) (r : Redis) :
    Except PyErr ((Bool × Metadata) × Redis) :=
  match rl.strategy with
  | RateLimitStrategy.fixed_window => fixedWindow identifier rl t r
  | RateLimitStrategy.sliding_window => slidingWindow identifier rl t r
  | RateLimitStrategy.token_bucket => tokenBucket identifier rl t r
  | RateLimitStrategy.leaky_bucket => leakyBucket identifier rl t r

/-- Python `str(v)` of a metadata value. -/
def MetaVal.pyStr : MetaVal → String
  | MetaVal.i n => toString n
  | MetaVal.q x => toString x
  | MetaVal.s v => v

/-- The three `X-RateLimit-*` headers attached by
`RateLimitMiddleware.dispatch` to an admitted request's response
(source lines 403-405), with the `metadata.get` fallback defaults;
`tResp` is the `time.time()` read at header-construction time. -/
def dispatchHeaders (metadata : Metadata) (rl : RateLimit) (tResp : ℚ) :
    List (String × String) :=
  [("X-RateLimit-Limit", ((metadata.lookup "limit").getD (MetaVal.i rl.requests)).pyStr),
   ("X-RateLimit-Remaining", ((metadata.lookup "remaining").getD (MetaVal.i 0)).pyStr),
   ("X-RateLimit-Reset", ((metadata.lookup "reset").getD (MetaVal.q (tResp + rl.window))).pyStr)]

/-- Run a sequence of checks for one client at the given call times,
threading the store state; a raised exception ends the trace with an
`error` entry. -/
def runChecks (identifier : String) (rl : RateLimit) (r : Redis) :
    List ℚ → List (ℚ × Except PyErr (Bool × Metadata)) × Redis
  | [] => ([], r)
  | t :: ts =>
    match checkRateLimit identifier rl t r with
    | Except.error e => ([(t, Except.error e)], r)
    | Except.ok (res, r') =>
        let rest := runChecks identifier rl r' ts
        ((t, Except.ok res) :: rest.1, rest.2)

/-- Whether a recorded trace entry was admitted. -/
def isAllowed : Except PyErr (Bool × Metadata) → Bool
  | Except.ok (b, _) => b
  | Except.error _ => false

/-- Number of admitted calls of a trace whose time falls in the
half-open window `[a, a + w)`. -/
def admittedInWindow (a w : ℚ) (trace : List (ℚ × Except PyErr (Bool × Metadata))) : ℕ :=
  (trace.filter
    (fun p => isAllowed p.2 && decide (a ≤ p.1) && decide (p.1 < a + w))).length

/-- Modelled from the spec wording of claim C4 as stated: the bare key
template `fixed:{identifier}:{windowStart}` (without the store's
`rate_limit:` namespace prefix used by the code). -/
def claimedFixedKey (identifier : String) (windowStart : ℤ) : String :=
  "fixed:" ++ identifier ++ ":" ++ toString windowStart

/-- Modelled from the spec wording of claim C4, amended only by the
`rate_limit:` namespace prefix on the key: `windowStart = now - (now mod
window)`; `count = incrWithExpiry(key, window)`; `allowed = count <=
requests`; `remaining = max(0, requests - count)`; `reset = windowStart
+ window`.  Result: `((allowed, remaining, reset), counters-after)`. -/
def specFixedWindow (identifier : String) (requests window : ℤ) (t : ℚ)
    (counters : List (String × ℕ × ℤ)) : (Bool × ℤ × ℤ) × List (String × ℕ × ℤ) :=
  let now := pyInt t
  let windowStart := now - pyMod now window
  let key := "rate_limit:fixed:" ++ identifier ++ ":" ++ toString windowStart
  let count : ℕ := (((counters.lookup key).map Prod.fst).getD 0) + 1
  ((decide ((count : ℤ) ≤ requests), max 0 (requests - count), windowStart + window),
   setKey counters key (count, window))

/-- Modelled from the spec wording of claim C6 as stated: remove exactly
the members with score `< windowStart` (strict, any sign), count the
survivors, and admit iff `priorCount + 1 <= requests`. -/
def claimedSlidingAllowed (requests window : ℤ) (t : ℚ) (z : List ℚ) : Bool :=
  let windowStart : ℚ := t - window
  let kept := z.filter (fun s => !decide (s < windowStart))
  decide (((kept.length : ℤ) + 1) ≤ requests)

/-- Modelled from the spec wording of claim C6, amended: key carries the
`rate_limit:` prefix; the prune removes scores in `[0, windowStart]`
(inclusive upper bound); `reset` is the truncation of `now + window`.
Result: `((allowed, remaining, reset), zset-after)`. -/
def specSlidingWindow (requests window : ℤ) (t : ℚ) (z : List ℚ) :
    (Bool × ℤ × ℤ) × List ℚ :=
  let windowStart : ℚ := t - window
  let kept := z.filter (fun s => !(decide (0 ≤ s) && decide (s ≤ windowStart)))
  let count : ℕ := kept.length + 1
  ((decide ((count : ℤ) ≤ requests), max 0 (requests - count), pyInt (t + window)),
   if t ∈ kept then kept else kept ++ [t])

/-- Modelled from the spec wording of claim C7, amended: the decision
reports the floor of the token count under the metadata key `tokens`
(the code has no `remaining` entry for this strategy).  Result:
`((allowed, floor of tokens), bucket-map-after)`. -/
def specTokenBucket (identifier : String) (requests window : ℤ) (burst : Option ℤ)
    (t : ℚ) (buckets : List (String × ℚ × ℚ × ℤ)) :
    (Bool × ℤ) × List (String × ℚ × ℚ × ℤ) :=
  let capacity : ℤ := pyOr burst requests
  let rate : ℚ := (requests : ℚ) / (window : ℚ)
  let key := tokenKey identifier
  let stored : ℚ :=
    match buckets.lookup key with
    | none => (capacity : ℚ)
    | some (tk, _, _) => tk
  let lastRefill : ℚ :=
    match buckets.lookup key with
    | none => t
    | some (_, lr, _) => lr
  let elapsed := t - lastRefill
  let tokens : ℚ := min (capacity : ℚ) (stored + elapsed * rate)
  let tokensAfter : ℚ := if 1 ≤ tokens then tokens - 1 else tokens
  ((if 1 ≤ tokens then true else false, ⌊tokensAfter⌋),
   setKey buckets key (tokensAfter, t, 2 * window))

/-- One sliding-window check step at the level of the single sorted set
involved, iterated over a list of call times: returns each call's time
and admit bit.  This mirrors the Redis pipeline of `_sliding_window`. -/
def slidingSimZ (requests window : ℤ) : List ℚ → List ℚ → List (ℚ × Bool)
  | _, [] => []
  | z, t :: ts =>
      let pruned := zremrangebyscore z 0 (t - window)
      (t, decide (((pruned.length + 1 : ℕ) : ℤ) ≤ requests)) ::
        slidingSimZ requests window (zadd pruned t) ts

/-- Reference form of the sliding-window run: the admit bit of a call at
time `t` is computed from the explicitly carried list of all past call
times (those newer than `t - window` are counted). -/
def slidingPast (requests window : ℤ) : List ℚ → List ℚ → List (ℚ × Bool)
  | _, [] => []
  | past, t :: ts =>
      (t, decide ((((past.filter (fun s => decide (t - (window : ℚ) < s))).length + 1 : ℕ) : ℤ)
            ≤ requests)) ::
        slidingPast requests window (past ++ [t]) ts

/-- The sorted-set state reached after processing the call times `past`
(strictly increasing, nonnegative): every past time newer than
`last - window`. -/
def zOfPast (window : ℤ) (past : List ℚ) : List ℚ :=
  match past.getLast? with
  | none => []
  | some lst => past.filter (fun s => decide (lst - (window : ℚ) < s))

/-! Helper lemmas. -/

theorem lookup_setKey {α : Type} (l : List (String × α)) (k : String) (v : α) :
    (setKey l k v).lookup k = some v := by
  induction l with
  | nil => simp [setKey, List.lookup]
  | cons e rest ih =>
    obtain ⟨k', v'⟩ := e
    by_cases h : k' = k
    · subst h; simp [setKey, List.lookup]
    · have hbeq : (k == k') = false := beq_eq_false_iff_ne.mpr (Ne.symm h)
      simp [setKey, h, List.lookup, hbeq, ih]

/-! Claim theorems. -/

/-- C1: for every client identifier and policy under any of the four
strategies, when every networked-store call raises a communication
error, `check_rate_limit` returns `allowed = true` with empty metadata
and raises nothing (`window ≠ 0` keeps the pre-store arithmetic, which
happens before the store is consulted, from raising). -/
theorem checkRateLimit_failsOpen (identifier : String) (rl : RateLimit) (t : ℚ)
    (r : Redis) (hf : r.failing = true) (hw : rl.window ≠ 0) :
    checkRateLimit identifier rl t r = Except.ok ((true, []), r) := by
  cases hs : rl.strategy <;>
    simp [checkRateLimit, hs, fixedWindow, slidingWindow, tokenBucket, leakyBucket, hw, hf]

/-- C1 witness: a concrete fail-open call. -/
theorem checkRateLimit_failsOpen_witness :
    checkRateLimit "client" ⟨5, 10, RateLimitStrategy.fixed_window, none⟩ 3 failingRedis =
      Except.ok ((true, []), failingRedis) :=
  checkRateLimit_failsOpen "client" ⟨5, 10, RateLimitStrategy.fixed_window, none⟩ 3
    failingRedis rfl (by decide)

/-- C5: fixed window with `requests = 5`, `window = 10`: five calls at
`t = 9.9` followed by five at `t = 10.1` are all admitted (they land in
different aligned windows), while of six calls inside one aligned
window the sixth is denied. -/
theorem fixedWindowBoundaryBurst :
    ((runChecks "c" ⟨5, 10, RateLimitStrategy.fixed_window, none⟩ emptyRedis
        (List.replicate 5 (99/10) ++ List.replicate 5 (101/10))).1.map
      (fun p => isAllowed p.2) = List.replicate 10 true) ∧
    ((runChecks "c" ⟨5, 10, RateLimitStrategy.fixed_window, none⟩ emptyRedis
        (List.replicate 6 3)).1.map (fun p => isAllowed p.2) =
      List.replicate 5 true ++ [false]) := by
  with_unfolding_all decide

/-- C8: leaky bucket with `requests = 60`, `window = 60`, `burst = 10`:
of eleven back-to-back calls exactly the first ten are admitted; after
waiting `window / requests = 1` second exactly one further call is
admitted (the next one at the same instant is denied again). -/
theorem leakyBucketCapacity :
    (runChecks "c" ⟨60, 60, RateLimitStrategy.leaky_bucket, some 10⟩ emptyRedis
        (List.replicate 11 0 ++ [1, 1])).1.map (fun p => isAllowed p.2) =
      List.replicate 10 true ++ [false, true, false] := by
  with_unfolding_all decide

/-- C9 counterexample: a policy with `window = 0` is accepted at
construction and reaches `check_rate_limit`, where the fixed-window
arithmetic `now % window` raises a per-request `ZeroDivisionError` —
there is no configuration-time rejection. -/
theorem rateLimitNoValidation_cex :
    checkRateLimit "c" ⟨100, 0, RateLimitStrategy.fixed_window, none⟩ 5 emptyRedis =
      Except.error PyErr.zeroDivision := by
  with_unfolding_all rfl

/-- C9 (amended): the `RateLimit` dataclass performs no validation, so a
policy with non-positive `requests` or `window` reaches
`check_rate_limit`; with `window = 0` the fixed-window, token-bucket and
leaky-bucket strategies raise a per-request `ZeroDivisionError`, while
the sliding-window strategy proceeds without raising. -/
theorem rateLimitNoValidation (identifier : String) (rl : RateLimit) (t : ℚ)
    (r : Redis) (hw : rl.window = 0) :
    ((rl.strategy = RateLimitStrategy.fixed_window ∨
      rl.strategy = RateLimitStrategy.token_bucket ∨
      rl.strategy = RateLimitStrategy.leaky_bucket) →
        checkRateLimit identifier rl t r = Except.error PyErr.zeroDivision) ∧
    (rl.strategy = RateLimitStrategy.sliding_window →
      ∃ res, checkRateLimit identifier rl t r = Except.ok res) := by
  constructor
  · rintro (hs | hs | hs) <;>
      simp [checkRateLimit, hs, fixedWindow, tokenBucket, leakyBucket, hw]
  · intro hs
    simp only [checkRateLimit, hs, slidingWindow]
    by_cases hfail : r.failing
    · rw [if_pos hfail]; exact ⟨_, rfl⟩
    · rw [if_neg hfail]; exact ⟨_, rfl⟩

/-- C9 witness: a concrete `window = 0` token-bucket policy raising at
request time. -/
theorem rateLimitNoValidation_witness :
    ((RateLimitStrategy.token_bucket = RateLimitStrategy.fixed_window ∨
      RateLimitStrategy.token_bucket = RateLimitStrategy.token_bucket ∨
      RateLimitStrategy.token_bucket = RateLimitStrategy.leaky_bucket) →
        checkRateLimit "c" ⟨100, 0, RateLimitStrategy.token_bucket, none⟩ 5 emptyRedis =
          Except.error PyErr.zeroDivision) ∧
    (RateLimitStrategy.token_bucket = RateLimitStrategy.sliding_window →
      ∃ res, checkRateLimit "c" ⟨100, 0, RateLimitStrategy.token_bucket, none⟩ 5 emptyRedis =
        Except.ok res) :=
  rateLimitNoValidation "c" ⟨100, 0, RateLimitStrategy.token_bucket, none⟩ 5 emptyRedis rfl

/-- C10: when a check fails open (store outage: `allowed = true`, empty
metadata), the middleware still attaches the three `X-RateLimit-*`
headers, filled from the `metadata.get` fallbacks: the policy's
`requests` as the limit, `"0"` as the remaining quota, and the current
time plus `window` as the reset. -/
theorem failOpenHeaders (identifier : String) (rl : RateLimit) (t tResp : ℚ)
    (r : Redis) (hf : r.failing = true) (hw : rl.window ≠ 0) :
    checkRateLimit identifier rl t r = Except.ok ((true, []), r) ∧
    dispatchHeaders [] rl tResp =
      [("X-RateLimit-Limit", toString rl.requests),
       ("X-RateLimit-Remaining", "0"),
       ("X-RateLimit-Reset", toString (tResp + (rl.window : ℚ)))] := by
  constructor
  · cases hs : rl.strategy <;>
      simp [checkRateLimit, hs, fixedWindow, slidingWindow, tokenBucket, leakyBucket, hw, hf]
  · rfl

/-- C10 witness: concrete fail-open headers. -/
theorem failOpenHeaders_witness :
    checkRateLimit "client" ⟨7, 60, RateLimitStrategy.sliding_window, none⟩ 2 failingRedis =
      Except.ok ((true, []), failingRedis) ∧
    dispatchHeaders [] ⟨7, 60, RateLimitStrategy.sliding_window, none⟩ 11 =
      [("X-RateLimit-Limit", toString (7 : ℤ)),
       ("X-RateLimit-Remaining", "0"),
       ("X-RateLimit-Reset", toString ((11 : ℚ) + ((60 : ℤ) : ℚ)))] :=
  failOpenHeaders "client" ⟨7, 60, RateLimitStrategy.sliding_window, none⟩ 2 11
    failingRedis rfl (by decide)

/-- C4 counterexample: the key the fixed-window code uses carries the
`rate_limit:` namespace prefix, so it is not the claimed
`fixed:{identifier}:{windowStart}`. -/
theorem fixedWindow_key_cex : fixedKey "c" 0 ≠ claimedFixedKey "c" 0 := by decide

/-- C6 counterexample: with one stored member at score exactly
`windowStart` (requests 1, window 10, a call at `t = 10` with a member
scored 0), the code prunes the member (inclusive bound) and admits,
while the claim's strict-bound formula keeps it and predicts denial. -/
theorem slidingWindow_boundary_cex :
    ((checkRateLimit "c" ⟨1, 10, RateLimitStrategy.sliding_window, none⟩ 10
        { emptyRedis with zsets := [("rate_limit:sliding:c", [0], 10)] }).map
      (fun p => p.1.1)) = Except.ok true ∧
    claimedSlidingAllowed 1 10 10 [0] = false := by
  exact ⟨by with_unfolding_all rfl, by with_unfolding_all rfl⟩

/-- C7 counterexample: a token-bucket decision's metadata has no
`remaining` entry at all — the token count is reported under the key
`tokens` instead. -/
theorem tokenBucket_metadata_cex :
    ((checkRateLimit "c" ⟨5, 10, RateLimitStrategy.token_bucket, none⟩ 0 emptyRedis).map
      (fun p => (p.1.2.lookup "remaining", p.1.2.lookup "tokens"))) =
      Except.ok (none, some (MetaVal.i 4)) := by
  with_unfolding_all rfl

/-- C2 counterexample: a leaky-bucket decision's metadata carries
neither a `remaining` nor a `reset` entry, refuting the claim for two of
the four strategies. -/
theorem metadataBounds_cex :
    ((checkRateLimit "c" ⟨5, 10, RateLimitStrategy.leaky_bucket, none⟩ 0 emptyRedis).map
      (fun p => (p.1.2.lookup "remaining", p.1.2.lookup "reset"))) =
      Except.ok (none, none) := by
  with_unfolding_all rfl

/-- C3 counterexample: seven calls sharing one exact timestamp are all
admitted under `requests = 5, window = 10` — the sorted set keys members
by `str(now)`, so simultaneous calls collapse into one member and the
rolling 10-second interval starting at 0 admits 7 > 5 requests. -/
theorem slidingWindowRollingBound_cex :
    admittedInWindow 0 10
        ((runChecks "k" ⟨5, 10, RateLimitStrategy.sliding_window, none⟩ emptyRedis
          (List.replicate 7 0)).1) = 7 ∧ 5 < 7 := by
  constructor
  · with_unfolding_all decide
  · decide

theorem pyInt_eq_floor {x : ℚ} (hx : 0 ≤ x) : pyInt x = ⌊x⌋ := by
  unfold pyInt; exact if_pos hx

/-- C4 (amended: the key carries the store's `rate_limit:` namespace
prefix): a fixed-window check computes `windowStart = now - (now mod
window)`, bumps the counter at `rate_limit:fixed:{identifier}:{windowStart}`
with expiry `window` to obtain `count`, and returns `allowed = (count <=
requests)`, `remaining = max(0, requests - count)`, `reset = windowStart
+ window`. -/
theorem fixedWindow_matches_spec (identifier : String) (rl : RateLimit) (t : ℚ)
    (r : Redis) (hs : rl.strategy = RateLimitStrategy.fixed_window)
    (hw : rl.window ≠ 0) (hf : r.failing = false) :
    checkRateLimit identifier rl t r =
      Except.ok
        (((specFixedWindow identifier rl.requests rl.window t r.counters).1.1,
          [("limit", MetaVal.i rl.requests),
           ("remaining",
             MetaVal.i (specFixedWindow identifier rl.requests rl.window t r.counters).1.2.1),
           ("reset",
             MetaVal.i (specFixedWindow identifier rl.requests rl.window t r.counters).1.2.2),
           ("strategy", MetaVal.s "fixed_window")]),
         { r with counters := (specFixedWindow identifier rl.requests rl.window t r.counters).2 }) := by
  simp only [checkRateLimit, hs, fixedWindow, specFixedWindow, fixedKey]
  rw [if_neg hw, if_neg (show ¬r.failing = true by simp [hf])]

/-- C4 witness: the amended fixed-window description instantiated at a
concrete call. -/
theorem fixedWindow_matches_spec_witness :
    checkRateLimit "c" ⟨5, 10, RateLimitStrategy.fixed_window, none⟩ (99/10) emptyRedis =
      Except.ok
        (((specFixedWindow "c" 5 10 (99/10) emptyRedis.counters).1.1,
          [("limit", MetaVal.i 5),
           ("remaining", MetaVal.i (specFixedWindow "c" 5 10 (99/10) emptyRedis.counters).1.2.1),
           ("reset", MetaVal.i (specFixedWindow "c" 5 10 (99/10) emptyRedis.counters).1.2.2),
           ("strategy", MetaVal.s "fixed_window")]),
         { emptyRedis with counters := (specFixedWindow "c" 5 10 (99/10) emptyRedis.counters).2 }) :=
  fixedWindow_matches_spec "c" ⟨5, 10, RateLimitStrategy.fixed_window, none⟩ (99/10)
    emptyRedis rfl (by decide) rfl

/-- C6 (amended: the key carries the `rate_limit:` prefix, the prune
removes scores in `[0, windowStart]` inclusive rather than strictly
below `windowStart`, and `reset` is the truncation of `now + window`):
a sliding-window check prunes, counts, adds the current timestamp with
expiry `window`, and returns `allowed = (priorCount + 1 <= requests)`,
`remaining = max(0, requests - (priorCount + 1))`. -/
theorem slidingWindow_matches_spec (identifier : String) (rl : RateLimit) (t : ℚ)
    (r : Redis) (hs : rl.strategy = RateLimitStrategy.sliding_window)
    (hf : r.failing = false) :
    checkRateLimit identifier rl t r =
      Except.ok
        (((specSlidingWindow rl.requests rl.window t
             (((r.zsets.lookup (slidingKey identifier)).map Prod.fst).getD [])).1.1,
          [("limit", MetaVal.i rl.requests),
           ("remaining",
             MetaVal.i (specSlidingWindow rl.requests rl.window t
               (((r.zsets.lookup (slidingKey identifier)).map Prod.fst).getD [])).1.2.1),
           ("reset",
             MetaVal.i (specSlidingWindow rl.requests rl.window t
               (((r.zsets.lookup (slidingKey identifier)).map Prod.fst).getD [])).1.2.2),
           ("strategy", MetaVal.s "sliding_window")]),
         { r with zsets := setKey r.zsets (slidingKey identifier) ((specSlidingWindow rl.requests rl.window t (((r.zsets.lookup (slidingKey identifier)).map Prod.fst).getD [])).2, rl.window) }) := by
  simp only [checkRateLimit, hs, slidingWindow, specSlidingWindow, zremrangebyscore, zadd]
  rw [if_neg (show ¬r.failing = true by simp [hf])]

/-- C6 witness: the amended sliding-window description instantiated at a
concrete call with one stored member. -/
theorem slidingWindow_matches_spec_witness :
    checkRateLimit "c" ⟨1, 10, RateLimitStrategy.sliding_window, none⟩ 10
        { emptyRedis with zsets := [("rate_limit:sliding:c", [0], 10)] } =
      Except.ok
        (((specSlidingWindow 1 10 10 [0]).1.1,
          [("limit", MetaVal.i 1),
           ("remaining", MetaVal.i (specSlidingWindow 1 10 10 [0]).1.2.1),
           ("reset", MetaVal.i (specSlidingWindow 1 10 10 [0]).1.2.2),
           ("strategy", MetaVal.s "sliding_window")]),
         { emptyRedis with zsets := setKey [("rate_limit:sliding:c", [0], 10)] "rate_limit:sliding:c" ((specSlidingWindow 1 10 10 [0]).2, 10) }) :=
  slidingWindow_matches_spec "c" ⟨1, 10, RateLimitStrategy.sliding_window, none⟩ 10
    { emptyRedis with zsets := [("rate_limit:sliding:c", [0], 10)] } rfl rfl

/-- C7 (amended: the decision's metadata reports the floor of the token
count under the key `tokens`, not `remaining`): a token-bucket check
uses capacity `burst or requests` and rate `requests / window`,
initializes an absent bucket to full, refills capped at capacity,
consumes one token iff at least one is available, and writes back
`{tokens, last_refill: now}` with TTL `2 × window`. -/
theorem tokenBucket_matches_spec (identifier : String) (rl : RateLimit) (t : ℚ)
    (r : Redis) (hs : rl.strategy = RateLimitStrategy.token_bucket)
    (hf : r.failing = false) (hreq : 0 < rl.requests) (hw : 0 < rl.window)
    (hburst : ∀ x ∈ rl.burst, 0 < x)
    (hstate : ∀ tk lr ttl, r.tokenH.lookup (tokenKey identifier) = some (tk, lr, ttl) →
        0 ≤ tk ∧ lr ≤ t) :
    checkRateLimit identifier rl t r =
      Except.ok
        (((specTokenBucket identifier rl.requests rl.window rl.burst t r.tokenH).1.1,
          [("limit", MetaVal.i rl.requests),
           ("burst", MetaVal.i (pyOr rl.burst rl.requests)),
           ("tokens",
             MetaVal.i (specTokenBucket identifier rl.requests rl.window rl.burst t r.tokenH).1.2),
           ("strategy", MetaVal.s "token_bucket")]),
         { r with tokenH := (specTokenBucket identifier rl.requests rl.window rl.burst t r.tokenH).2 }) := by
  have hcap : (0 : ℤ) < pyOr rl.burst rl.requests := by
    cases hb : rl.burst with
    | none => simpa [pyOr] using hreq
    | some x =>
      have hx := hburst x (by simp [hb])
      by_cases hx0 : x = 0
      · simpa [pyOr, hx0] using hreq
      · simpa [pyOr, hx0] using hx
  have hrate : (0 : ℚ) ≤ (rl.requests : ℚ) / (rl.window : ℚ) :=
    div_nonneg (by exact_mod_cast hreq.le) (by exact_mod_cast hw.le)
  cases hlk : r.tokenH.lookup (tokenKey identifier) with
  | none =>
    simp only [checkRateLimit, hs, tokenBucket, specTokenBucket, hlk]
    rw [if_neg hw.ne', if_neg (show ¬r.failing = true by simp [hf])]
    have hT0 : (0 : ℚ) ≤ min ((pyOr rl.burst rl.requests : ℤ) : ℚ)
        (((pyOr rl.burst rl.requests : ℤ) : ℚ) +
          (t - t) * ((rl.requests : ℚ) / (rl.window : ℚ))) := by
      have h0 : (0 : ℚ) ≤ ((pyOr rl.burst rl.requests : ℤ) : ℚ) := by exact_mod_cast hcap.le
      refine le_min h0 ?_
      nlinarith
    by_cases h1 : (1 : ℚ) ≤ min ((pyOr rl.burst rl.requests : ℤ) : ℚ)
        (((pyOr rl.burst rl.requests : ℤ) : ℚ) +
          (t - t) * ((rl.requests : ℚ) / (rl.window : ℚ)))
    · have h2 : (0 : ℚ) ≤ min ((pyOr rl.burst rl.requests : ℤ) : ℚ)
          (((pyOr rl.burst rl.requests : ℤ) : ℚ) +
            (t - t) * ((rl.requests : ℚ) / (rl.window : ℚ))) - 1 := by linarith
      simp only [if_pos h1]
      rw [pyInt_eq_floor h2, mul_comm rl.window 2]
    · simp only [if_neg h1]
      rw [pyInt_eq_floor hT0, mul_comm rl.window 2]
  | some v =>
    obtain ⟨tk, lr, ttl⟩ := v
    obtain ⟨htk, hlr⟩ := hstate tk lr ttl hlk
    simp only [checkRateLimit, hs, tokenBucket, specTokenBucket, hlk]
    rw [if_neg hw.ne', if_neg (show ¬r.failing = true by simp [hf])]
    have hT0 : (0 : ℚ) ≤ min ((pyOr rl.burst rl.requests : ℤ) : ℚ)
        (tk + (t - lr) * ((rl.requests : ℚ) / (rl.window : ℚ))) := by
      have h0 : (0 : ℚ) ≤ ((pyOr rl.burst rl.requests : ℤ) : ℚ) := by exact_mod_cast hcap.le
      refine le_min h0 ?_
      have := mul_nonneg (by linarith : (0 : ℚ) ≤ t - lr) hrate
      linarith
    by_cases h1 : (1 : ℚ) ≤ min ((pyOr rl.burst rl.requests : ℤ) : ℚ)
        (tk + (t - lr) * ((rl.requests : ℚ) / (rl.window : ℚ)))
    · have h2 : (0 : ℚ) ≤ min ((pyOr rl.burst rl.requests : ℤ) : ℚ)
          (tk + (t - lr) * ((rl.requests : ℚ) / (rl.window : ℚ))) - 1 := by linarith
      simp only [if_pos h1]
      rw [pyInt_eq_floor h2, mul_comm rl.window 2]
    · simp only [if_neg h1]
      rw [pyInt_eq_floor hT0, mul_comm rl.window 2]

/-- C7 witness: the amended token-bucket description instantiated at a
concrete call on an empty store. -/
theorem tokenBucket_matches_spec_witness :
    checkRateLimit "c" ⟨5, 10, RateLimitStrategy.token_bucket, none⟩ 2 emptyRedis =
      Except.ok
        (((specTokenBucket "c" 5 10 none 2 emptyRedis.tokenH).1.1,
          [("limit", MetaVal.i 5),
           ("burst", MetaVal.i (pyOr none 5)),
           ("tokens", MetaVal.i (specTokenBucket "c" 5 10 none 2 emptyRedis.tokenH).1.2),
           ("strategy", MetaVal.s "token_bucket")]),
         { emptyRedis with tokenH := (specTokenBucket "c" 5 10 none 2 emptyRedis.tokenH).2 }) :=
  tokenBucket_matches_spec "c" ⟨5, 10, RateLimitStrategy.token_bucket, none⟩ 2 emptyRedis
    rfl rfl (by decide) (by decide) (by intro x hx; simp at hx)
    (by intro tk lr ttl h; simp [List.lookup] at h)

/-- C2 (amended: only the fixed-window and sliding-window strategies put
`remaining` and `reset` entries in the decision metadata; for them
`remaining` lies in `[0, limit]` and `reset` is at or after the call's
`now`; the token-bucket and leaky-bucket strategies report no
`remaining`/`reset` at all, carrying `tokens` resp. `volume` instead). -/
theorem checkRateLimit_metadataBounds (identifier : String) (rl : RateLimit) (t : ℚ)
    (r : Redis) (hf : r.failing = false) (hreq : 0 < rl.requests)
    (hw : 0 < rl.window) (ht : 0 ≤ t) :
    ∃ b md r', checkRateLimit identifier rl t r = Except.ok ((b, md), r') ∧
      (((rl.strategy = RateLimitStrategy.fixed_window ∨
         rl.strategy = RateLimitStrategy.sliding_window) →
          ∃ rem rst, md.lookup "remaining" = some (MetaVal.i rem) ∧
            0 ≤ rem ∧ rem ≤ rl.requests ∧
            md.lookup "reset" = some (MetaVal.i rst) ∧ t ≤ (rst : ℚ)) ∧
       ((rl.strategy = RateLimitStrategy.token_bucket ∨
         rl.strategy = RateLimitStrategy.leaky_bucket) →
          md.lookup "remaining" = none ∧ md.lookup "reset" = none)) := by
  have hwq : (0 : ℚ) < (rl.window : ℚ) := by exact_mod_cast hw
  cases hs : rl.strategy with
  | fixed_window =>
    simp only [checkRateLimit, hs, fixedWindow]
    rw [if_neg hw.ne', if_neg (show ¬r.failing = true by simp [hf])]
    refine ⟨_, _, _, rfl, ?_, ?_⟩
    · intro _
      refine ⟨_, _, rfl, le_max_left _ _, ?_, rfl, ?_⟩
      · exact max_le hreq.le (sub_le_self rl.requests (by exact_mod_cast Nat.zero_le _))
      · have hfloor : pyInt t = ⌊t⌋ := pyInt_eq_floor ht
        have hmod : pyMod (pyInt t) rl.window = pyInt t % rl.window :=
          Int.fmod_eq_emod _ hw.le
        have hlt : pyInt t % rl.window < rl.window := Int.emod_lt_of_pos _ hw
        have hz : ⌊t⌋ + 1 ≤ pyInt t - pyMod (pyInt t) rl.window + rl.window := by
          rw [hfloor] at hmod hlt ⊢
          omega
        have h1 : t < ((⌊t⌋ + 1 : ℤ) : ℚ) := by
          push_cast
          exact Int.lt_floor_add_one t
        have h2 : ((⌊t⌋ + 1 : ℤ) : ℚ) ≤
            ((pyInt t - pyMod (pyInt t) rl.window + rl.window : ℤ) : ℚ) := by
          exact_mod_cast hz
        linarith
    · rintro (h | h) <;> exact absurd h (by decide)
  | sliding_window =>
    simp only [checkRateLimit, hs, slidingWindow]
    rw [if_neg (show ¬r.failing = true by simp [hf])]
    refine ⟨_, _, _, rfl, ?_, ?_⟩
    · intro _
      refine ⟨_, _, rfl, le_max_left _ _, ?_, rfl, ?_⟩
      · exact max_le hreq.le (sub_le_self rl.requests (by exact_mod_cast Nat.zero_le _))
      · have h0 : (0 : ℚ) ≤ t + (rl.window : ℚ) := by linarith
        have hfloor : pyInt (t + (rl.window : ℚ)) = ⌊t + (rl.window : ℚ)⌋ :=
          pyInt_eq_floor h0
        have hadd : ⌊t + (rl.window : ℚ)⌋ = ⌊t⌋ + rl.window := Int.floor_add_int t rl.window
        have hz : ⌊t⌋ + 1 ≤ ⌊t⌋ + rl.window := by omega
        have h1 : t < ((⌊t⌋ + 1 : ℤ) : ℚ) := by
          push_cast
          exact Int.lt_floor_add_one t
        have h2 : ((⌊t⌋ + 1 : ℤ) : ℚ) ≤ ((⌊t⌋ + rl.window : ℤ) : ℚ) := by exact_mod_cast hz
        rw [hfloor, hadd]
        linarith
    · rintro (h | h) <;> exact absurd h (by decide)
  | token_bucket =>
    simp only [checkRateLimit, hs, tokenBucket]
    rw [if_neg hw.ne', if_neg (show ¬r.failing = true by simp [hf])]
    refine ⟨_, _, _, rfl, ?_, ?_⟩
    · rintro (h | h) <;> exact absurd h (by decide)
    · exact fun _ => ⟨rfl, rfl⟩
  | leaky_bucket =>
    simp only [checkRateLimit, hs, leakyBucket]
    rw [if_neg hw.ne', if_neg (show ¬r.failing = true by simp [hf])]
    refine ⟨_, _, _, rfl, ?_, ?_⟩
    · rintro (h | h) <;> exact absurd h (by decide)
    · exact fun _ => ⟨rfl, rfl⟩

/-- C2 witness: the amended metadata-bounds statement instantiated at a
concrete fixed-window call. -/
theorem checkRateLimit_metadataBounds_witness :
    ∃ b md r', checkRateLimit "c" ⟨5, 10, RateLimitStrategy.fixed_window, none⟩ 0 emptyRedis =
        Except.ok ((b, md), r') ∧
      ((((⟨5, 10, RateLimitStrategy.fixed_window, none⟩ : RateLimit).strategy =
           RateLimitStrategy.fixed_window ∨
         (⟨5, 10, RateLimitStrategy.fixed_window, none⟩ : RateLimit).strategy =
           RateLimitStrategy.sliding_window) →
          ∃ rem rst, md.lookup "remaining" = some (MetaVal.i rem) ∧
            0 ≤ rem ∧ rem ≤ (5 : ℤ) ∧
            md.lookup "reset" = some (MetaVal.i rst) ∧ (0 : ℚ) ≤ (rst : ℚ)) ∧
       (((⟨5, 10, RateLimitStrategy.fixed_window, none⟩ : RateLimit).strategy =
           RateLimitStrategy.token_bucket ∨
         (⟨5, 10, RateLimitStrategy.fixed_window, none⟩ : RateLimit).strategy =
           RateLimitStrategy.leaky_bucket) →
          md.lookup "remaining" = none ∧ md.lookup "reset" = none)) :=
  checkRateLimit_metadataBounds "c" ⟨5, 10, RateLimitStrategy.fixed_window, none⟩ 0
    emptyRedis rfl (by decide) (by decide) (le_refl 0)

theorem runChecks_sliding (identifier : String) (req w : ℤ) (b : Option ℤ) :
    ∀ (ts : List ℚ) (r : Redis), r.failing = false →
      (runChecks identifier ⟨req, w, RateLimitStrategy.sliding_window, b⟩ r ts).1.map
          (fun p => (p.1, isAllowed p.2)) =
        slidingSimZ req w (((r.zsets.lookup (slidingKey identifier)).map Prod.fst).getD []) ts := by
  intro ts
  induction ts with
  | nil =>
    intro r hf
    simp [runChecks, slidingSimZ]
  | cons t ts ih =>
    intro r hf
    simp only [runChecks, checkRateLimit, slidingWindow]
    rw [if_neg (show ¬r.failing = true by simp [hf])]
    simp only [List.map_cons, isAllowed, slidingSimZ]
    congr 1
    refine (ih _ ?_).trans ?_
    · exact hf
    · rw [lookup_setKey]
      simp

theorem slidingSimZ_eq_past (req w : ℤ) (hw : 0 < w) :
    ∀ (ts past : List ℚ), List.Pairwise (· < ·) (past ++ ts) →
      (∀ s, s ∈ past ++ ts → 0 ≤ s) →
      slidingSimZ req w (zOfPast w past) ts = slidingPast req w past ts := by
  intro ts
  induction ts with
  | nil => intro past _ _; rfl
  | cons t ts ih =>
    intro past hpw hnn
    have hwq : (0 : ℚ) < (w : ℚ) := by exact_mod_cast hw
    have hlt : ∀ s ∈ past, s < t := fun s hs =>
      (List.pairwise_append.mp hpw).2.2 s hs t (by simp)
    have hprune : zremrangebyscore (zOfPast w past) 0 (t - (w : ℚ)) =
        past.filter (fun s => decide (t - (w : ℚ) < s)) := by
      unfold zOfPast
      cases hp : past.getLast? with
      | none =>
        have hpast : past = [] := List.getLast?_eq_none_iff.mp hp
        subst hpast
        rfl
      | some lst =>
        have hlast_lt : lst < t := hlt lst (List.mem_of_mem_getLast? hp)
        rw [zremrangebyscore, List.filter_filter]
        refine List.filter_congr ?_
        intro s hs
        have h0s : (0 : ℚ) ≤ s := hnn s (by simp [hs])
        by_cases hc : t - (w : ℚ) < s
        · have h1 : ¬(s ≤ t - (w : ℚ)) := not_le.mpr hc
          have h2 : lst - (w : ℚ) < s := by linarith
          simp [hc, h1, h2, h0s]
        · have h1 : s ≤ t - (w : ℚ) := not_lt.mp hc
          simp [hc, h1, h0s]
    have htw : t - (w : ℚ) < t := by linarith
    have hzadd : zadd (past.filter (fun s => decide (t - (w : ℚ) < s))) t =
        (past ++ [t]).filter (fun s => decide (t - (w : ℚ) < s)) := by
      rw [zadd, if_neg, List.filter_append]
      · simp [htw]
      · intro hmem
        exact absurd (hlt t (List.mem_of_mem_filter hmem)) (lt_irrefl t)
    have hzOf : zOfPast w (past ++ [t]) =
        (past ++ [t]).filter (fun s => decide (t - (w : ℚ) < s)) := by
      unfold zOfPast
      rw [List.getLast?_concat]
    simp only [slidingSimZ, slidingPast]
    rw [hprune]
    congr 1
    rw [hzadd, ← hzOf]
    refine ih (past ++ [t]) ?_ ?_
    · rw [List.append_assoc]
      exact hpw
    · intro s hs
      rw [List.append_assoc] at hs
      exact hnn s hs

theorem slidingPast_map_fst (req w : ℤ) :
    ∀ (ts past : List ℚ), (slidingPast req w past ts).map Prod.fst = ts := by
  intro ts
  induction ts with
  | nil => intro past; rfl
  | cons t ts ih => intro past; simp [slidingPast, ih]

theorem slidingPast_allowed (req w : ℤ) :
    ∀ (ts past : List ℚ), List.Pairwise (· < ·) (past ++ ts) →
      ∀ t bb, (t, bb) ∈ slidingPast req w past ts →
        bb = decide (((((past ++ ts).filter
            (fun s => decide (s < t) && decide (t - (w : ℚ) < s))).length + 1 : ℕ) : ℤ) ≤ req) := by
  intro ts
  induction ts with
  | nil =>
    intro past _ t bb h
    simp [slidingPast] at h
  | cons t₀ ts ih =>
    intro past hpw t bb hmem
    have hlt : ∀ s ∈ past, s < t₀ := fun s hs =>
      (List.pairwise_append.mp hpw).2.2 s hs t₀ (by simp)
    have htail : ∀ s ∈ ts, t₀ < s := by
      have h1 : List.Pairwise (· < ·) (t₀ :: ts) := (List.pairwise_append.mp hpw).2.1
      exact (List.pairwise_cons.mp h1).1
    simp only [slidingPast, List.mem_cons] at hmem
    rcases hmem with heq | hmem
    · injection heq with h1 h2
      subst h1
      subst h2
      have hfil : (past ++ t :: ts).filter
          (fun s => decide (s < t) && decide (t - (w : ℚ) < s)) =
          past.filter (fun s => decide (t - (w : ℚ) < s)) := by
        rw [List.filter_append]
        have h2 : (t :: ts).filter
            (fun s => decide (s < t) && decide (t - (w : ℚ) < s)) = [] := by
          refine List.filter_eq_nil_iff.mpr ?_
          intro s hs
          rcases List.mem_cons.mp hs with rfl | hs'
          · simp
          · have := htail s hs'
            simp [not_lt.mpr this.le]
        have h3 : past.filter (fun s => decide (s < t) && decide (t - (w : ℚ) < s)) =
            past.filter (fun s => decide (t - (w : ℚ) < s)) := by
          refine List.filter_congr ?_
          intro s hs
          simp [hlt s hs]
        rw [h2, h3, List.append_nil]
      rw [hfil]
    · have hassoc : (past ++ [t₀]) ++ ts = past ++ t₀ :: ts := by
        rw [List.append_assoc, List.singleton_append]
      have := ih (past ++ [t₀]) (by rw [hassoc]; exact hpw) t bb hmem
      rwa [hassoc] at this

theorem slidingPast_bound (req w : ℤ) (hreq : 0 < req) (ts : List ℚ)
    (hsort : List.Pairwise (· < ·) ts) (a : ℚ) :
    (((slidingPast req w [] ts).filter
        (fun p => p.2 && decide (a ≤ p.1) && decide (p.1 < a + (w : ℚ)))).length : ℤ) ≤ req := by
  by_contra hcon
  push_neg at hcon
  set A := (slidingPast req w [] ts).filter
      (fun p => p.2 && decide (a ≤ p.1) && decide (p.1 < a + (w : ℚ))) with hA
  have hAne : A ≠ [] := by
    intro h
    rw [h] at hcon
    simp at hcon
    omega
  have hsplit : A.dropLast ++ [A.getLast hAne] = A := List.dropLast_append_getLast hAne
  set x := A.getLast hAne with hxdef
  have hmapfst : (slidingPast req w [] ts).map Prod.fst = ts := slidingPast_map_fst req w ts []
  have hPW : List.Pairwise (fun p q : ℚ × Bool => p.1 < q.1) (slidingPast req w [] ts) := by
    have h1 : List.Pairwise (· < ·) ((slidingPast req w [] ts).map Prod.fst) := by
      rw [hmapfst]; exact hsort
    exact List.pairwise_map.mp h1
  have hPA : List.Pairwise (fun p q : ℚ × Bool => p.1 < q.1) A :=
    List.Pairwise.sublist (List.filter_sublist _) hPW
  have hprevlt : ∀ y ∈ A.dropLast, y.1 < x.1 := by
    rw [← hsplit] at hPA
    intro y hy
    exact (List.pairwise_append.mp hPA).2.2 y hy x (by simp)
  have hxA : x ∈ A := List.getLast_mem hAne
  have hxL : x ∈ slidingPast req w [] ts := List.mem_of_mem_filter hxA
  have hxpred := List.of_mem_filter hxA
  rw [Bool.and_eq_true, Bool.and_eq_true] at hxpred
  obtain ⟨⟨hx2, hxa⟩, hxb⟩ := hxpred
  have hxa' : a ≤ x.1 := of_decide_eq_true hxa
  have hxb' : x.1 < a + (w : ℚ) := of_decide_eq_true hxb
  have hbx := slidingPast_allowed req w ts [] (by simpa using hsort) x.1 x.2
    (by rw [Prod.mk.eta]; exact hxL)
  rw [hx2] at hbx
  have hcount : (((ts.filter
      (fun s => decide (s < x.1) && decide (x.1 - (w : ℚ) < s))).length + 1 : ℕ) : ℤ) ≤ req := by
    have h1 := hbx.symm
    rw [List.nil_append] at h1
    exact of_decide_eq_true h1
  set M := A.dropLast.map Prod.fst with hM
  have hMsub : M.Sublist ts := by
    have h1 : A.dropLast.Sublist (slidingPast req w [] ts) :=
      (List.dropLast_sublist A).trans (List.filter_sublist _)
    have h2 := h1.map Prod.fst
    rwa [hmapfst] at h2
  have hMpred : ∀ m ∈ M, (decide (m < x.1) && decide (x.1 - (w : ℚ) < m)) = true := by
    intro m hm
    obtain ⟨y, hy, rfl⟩ := List.mem_map.mp hm
    have h5 : y.1 < x.1 := hprevlt y hy
    have hyA : y ∈ A := (List.dropLast_sublist A).subset hy
    have hypred := List.of_mem_filter hyA
    rw [Bool.and_eq_true, Bool.and_eq_true] at hypred
    have hya : a ≤ y.1 := of_decide_eq_true hypred.1.2
    have h6 : x.1 - (w : ℚ) < y.1 := by linarith
    simp [h5, h6]
  have hMfil : M.filter (fun s => decide (s < x.1) && decide (x.1 - (w : ℚ) < s)) = M :=
    List.filter_eq_self.mpr hMpred
  have hMsub2 : M.Sublist <| ts.filter (fun s => decide (s < x.1) && decide (x.1 - (w : ℚ) < s)) := by
    have h1 := hMsub.filter (fun s => decide (s < x.1) && decide (x.1 - (w : ℚ) < s))
    rwa [hMfil] at h1
  have hlen := hMsub2.length_le
  have hMlen : M.length = A.length - 1 := by
    rw [hM, List.length_map, List.length_dropLast]
  have hAlen : A.length ≠ 0 := fun h => hAne (List.length_eq_zero.mp h)
  omega

/-- C3 (amended: for call sequences whose timestamps are strictly
increasing — i.e. nondecreasing and pairwise distinct; calls that share
one exact timestamp collapse into a single sorted-set member and escape
the count): under `requests = 5, window = 10` no half-open rolling
10-second interval `[a, a + 10)` ever contains more than 5 admitted
requests of one client key, regardless of alignment. -/
theorem slidingWindowRollingBound (identifier : String) (ts : List ℚ) (a : ℚ)
    (hsort : List.Pairwise (· < ·) ts) (hnn : ∀ t ∈ ts, 0 ≤ t) :
    admittedInWindow a 10
        ((runChecks identifier ⟨5, 10, RateLimitStrategy.sliding_window, none⟩
          emptyRedis ts).1) ≤ 5 := by
  have hbridge := runChecks_sliding identifier 5 10 none ts emptyRedis rfl
  have hz0 : (((emptyRedis.zsets.lookup (slidingKey identifier)).map Prod.fst).getD []) =
      ([] : List ℚ) := rfl
  rw [hz0] at hbridge
  have hchar := slidingSimZ_eq_past 5 10 (by decide) ts [] (by simpa using hsort)
    (by simpa using hnn)
  have hzp : zOfPast 10 ([] : List ℚ) = [] := rfl
  rw [hzp] at hchar
  have hfb := slidingPast_bound 5 10 (by decide) ts hsort a
  rw [← hchar, ← hbridge] at hfb
  rw [List.filter_map, List.length_map] at hfb
  have hcast : ((10 : ℤ) : ℚ) = (10 : ℚ) := by norm_num
  unfold admittedInWindow
  rw [show (fun p : ℚ × Except PyErr (Bool × Metadata) =>
      isAllowed p.2 && decide (a ≤ p.1) && decide (p.1 < a + 10)) =
      ((fun p : ℚ × Bool => p.2 && decide (a ≤ p.1) && decide (p.1 < a + ((10 : ℤ) : ℚ))) ∘
        (fun p : ℚ × Except PyErr (Bool × Metadata) => (p.1, isAllowed p.2))) from by
    funext p
    simp [Function.comp, hcast]]
  exact_mod_cast hfb

/-- C3 witness: the amended rolling bound instantiated at a concrete
strictly increasing trace. -/
theorem slidingWindowRollingBound_witness :
    admittedInWindow 0 10
        ((runChecks "k" ⟨5, 10, RateLimitStrategy.sliding_window, none⟩
          emptyRedis [0, 1, 2]).1) ≤ 5 :=
  slidingWindowRollingBound "k" [0, 1, 2] 0
    (by norm_num [List.pairwise_cons])
    (by intro t ht
        rcases List.mem_cons.mp ht with rfl | ht'
        · norm_num
        · rcases List.mem_cons.mp ht' with rfl | ht''
          · norm_num
          · rcases List.mem_cons.mp ht'' with rfl | ht'''
            · norm_num
            · simp at ht''')
